import Mathlib

/-!
Verification of the sangiinlist2025 candidate scrapers.

This file gives a shallow embedding of the two scraper scripts
`fetch_saninsen2025_asahi.py` and `fetch_saninsen2025_senkyo.py` and proves
properties of the embedded definitions.

Modelling conventions:
* Pure string manipulation (slug generation, token splitting, party
  normalization, regex-based extraction) is translated directly into
  executable Lean functions over `List Char` / `String`.
* The external romanization library (pykakasi) is an uninterpreted parameter
  `romanize : String → String` (and `hira` for the hiragana conversion);
  all theorems hold for every such function.
* HTML documents are embedded as the abstract element structure that the
  BeautifulSoup queries of the scripts observe (headings, containers, list
  item texts, section records).  Parsing the empty string yields the empty
  document: no headings, no containers, no sections.
* Network traffic is embedded as the sequence of per-attempt outcomes the
  requests library would deliver (a response with a status code and body, or
  a transport-level exception).
* Machine integers do not occur; ages and status codes are plain strings and
  naturals in the source and in the embedding.
-/

/-! ## Shared character and string utilities -/

/-- ASCII lowercase letters and ASCII digits, i.e. the character class
`[a-z0-9]` of the slug regex. -/
def isAlnumLC (c : Char) : Bool :=
  ('a' ≤ c && c ≤ 'z') || ('0' ≤ c && c ≤ '9')

/-- Whitespace as matched by the `\s` regex class and by the Python `strip`
method; modelled by the standard whitespace characters (space, tab, newline,
carriage return), which covers the texts this pipeline handles. -/
def isPySpace (c : Char) : Bool := c.isWhitespace

/-- Decimal-digit characters as matched by the regex class `\d`
(Unicode category Nd); modelled by ASCII digits and fullwidth digits, the
two Nd ranges occurring in this domain. -/
def isNd (c : Char) : Bool :=
  c.isDigit || ('０' ≤ c && c ≤ '９')

/-- Characters accepted by the Python `str.isdigit` predicate; besides the
Nd digits it also accepts digit-typed characters such as the circled digits
①-⑨ used as rank markers on the scraped pages. -/
def pyDigitChar (c : Char) : Bool :=
  isNd c || ('①' ≤ c && c ≤ '⑨')

/-- Python `str.isdigit`: nonempty and every character a digit. -/
def pyIsDigitStr (s : String) : Bool :=
  !s.data.isEmpty && s.data.all pyDigitChar

/-- Lexicographic comparison of character lists by code point, the order the
Python builtin `sorted` uses on strings. -/
def charListLe : List Char → List Char → Bool
  | [], _ => true
  | _ :: _, [] => false
  | c :: cs, d :: ds => if c = d then charListLe cs ds else decide (c.toNat < d.toNat)

/-- String comparison by code-point lexicographic order (Python `sorted`). -/
def strLe (a b : String) : Bool := charListLe a.data b.data

/-- Python `sorted` on a list of strings, embedded as insertion sort by
`strLe`. -/
def pySort (l : List String) : List String :=
  l.insertionSort (fun a b => strLe a b = true)

/-- Python `sorted(set(...))` on strings: deduplicate, then sort. -/
def dedupSort (l : List String) : List String := pySort l.dedup

/-- First index at which `needle` occurs as a contiguous block of `hay`
(the starting position `re.search` would report for a literal pattern). -/
def findSub (needle : List Char) : List Char → Option Nat
  | [] => if needle.isEmpty then some 0 else none
  | c :: rest =>
    if needle.isPrefixOf (c :: rest) then some 0
    else (findSub needle rest).map (· + 1)

/-- Whether `needle` occurs as a contiguous block of `hay`; the Python
substring test `needle in hay`. -/
def containsSub (needle hay : List Char) : Bool :=
  (findSub needle hay).isSome

/-- Python `str.startswith(pre)`, by character-list prefix test. -/
def pyStartsWith (pre s : String) : Bool := pre.data.isPrefixOf s.data

/-- Python `str.strip()`: drop whitespace from both ends. -/
def pyStrip (s : String) : String :=
  String.mk (((s.data.dropWhile isPySpace).reverse.dropWhile isPySpace).reverse)

/-- One splitting pass of `re.split r"\s+"`: `inSpace` records whether the
scanner is inside a whitespace run (whose piece has already been emitted),
`acc` holds the characters of the current piece in reverse. -/
def pySplitWsAux : List Char → Bool → List Char → List String
  | [], _, acc => [String.mk acc.reverse]
  | c :: rest, inSpace, acc =>
    if isPySpace c then
      if inSpace then pySplitWsAux rest true acc
      else String.mk acc.reverse :: pySplitWsAux rest true []
    else pySplitWsAux rest false (c :: acc)

/-- Python `re.split(r"\s+", text)`: pieces between maximal whitespace runs,
with an empty piece at an end that touches whitespace (as the Python
function produces). -/
def pySplitWs (l : List Char) : List String := pySplitWsAux l false []

/-! ## Slug generation (`slugify_jp`, identical in both scripts) -/

/-- The substitution `re.sub(r"[^a-z0-9]+", "-", romaji)`: every maximal run
of characters outside `[a-z0-9]` becomes a single hyphen.  `inRun` records
whether the previous character was part of such a run (in which case its
hyphen has already been emitted). -/
def hyphenateAux : Bool → List Char → List Char
  | _, [] => []
  | inRun, c :: rest =>
    if isAlnumLC c then c :: hyphenateAux false rest
    else if inRun then hyphenateAux true rest
    else '-' :: hyphenateAux true rest

/-- Python `str.strip("-")`: drop hyphens from both ends. -/
def stripHyphens (l : List Char) : List Char :=
  ((l.dropWhile (· = '-')).reverse.dropWhile (· = '-')).reverse

/-- The processing `slugify_jp` applies to the romanized text: lowercase,
replace runs of non-alphanumerics by single hyphens, strip edge hyphens. -/
def slugCore (romaji : List Char) : List Char :=
  stripHyphens (hyphenateAux false (romaji.map Char.toLower))

/-- `slugify_jp` from both scripts.  The pykakasi hepburn romanization is
the uninterpreted parameter `romanize`. -/
def slugify_jp (romanize : String → String) (text : String) : String :=
  String.mk (slugCore (romanize text).data)

/-! ## Fetcher (`fetch`, identical logic in both scripts) -/

/-- Outcome of one HTTP GET attempt: either a response with a status code
and body text, or a transport-level exception raised by `requests.get`. -/
inductive AttemptResult where
  | response (status : Nat) (text : String)
  | transportError
deriving DecidableEq

/-- The retry loop of `fetch`, over the list of outcomes of the successive
attempts (one list element per loop iteration).  A 404 response returns the
empty string immediately; a 4xx or 5xx response makes `raise_for_status`
throw, which the `except` branch turns into a retry, as does a transport
error; any other response returns its body.  Exhausting the list (the loop
running out of retries) returns the empty string.  The function is total:
`fetch` never propagates an exception to its caller. -/
def fetchList : List AttemptResult → String
  | [] => ""
  | .transportError :: rest => fetchList rest
  | .response s t :: rest =>
    if s = 404 then ""
    else if 400 ≤ s ∧ s ≤ 599 then fetchList rest
    else t

/-- `fetch(url, retry, sleep)`: run the retry loop for `retry` iterations,
attempt `i` producing outcome `attempt i`. -/
def fetch (attempt : Nat → AttemptResult) (retry : Nat) : String :=
  fetchList ((List.range retry).map attempt)

/-- An attempt outcome on which the loop body of `fetch` retries: a
transport error, or a non-404 response that `raise_for_status` rejects. -/
def isRetryFailure : AttemptResult → Bool
  | .transportError => true
  | .response s _ => s ≠ 404 && 400 ≤ s && s ≤ 599

/-! ## Asahi variant (`fetch_saninsen2025_asahi.py`) -/

namespace Asahi

/-- Output row of the Asahi parser (keys of the dict built in
`parse_candidates`, in source order). -/
structure AsahiRecord where
  id : String
  todoufuken : String
  senkyoku : String
  seitou : String
  title : String
  detail : String
  age : String
  tubohantei : String
  tubonaiyou : String
  tuboURL : String
  uraganehantei : String
  uraganenaiyou : String
  uraganeURL : String
deriving DecidableEq

/-- A `div.snkKohoInfoBox[data-type="yoteisha"]` container: the text of its
`.snkTitle h3` heading (empty when the heading is absent) and the texts of
its `li` descendants. -/
structure AsahiContainer where
  party : String
  items : List String
deriving DecidableEq

/-- The parts of an Asahi candidate page that `parse_candidates` observes:
the page heading text (`.PageTitle .Title h1` or the first `h1`), the
yoteisha containers, and — for the old page structure — the texts of the
`li`/`p` elements following the `立候補予定者一覧` heading (`none` when no
such heading exists). -/
structure AsahiPage where
  h1Text : Option String
  containers : List AsahiContainer
  oldSection : Option (List String)
deriving DecidableEq

/-- The document BeautifulSoup produces from the empty string: no heading,
no containers, no old-structure section. -/
def emptyAsahiPage : AsahiPage := ⟨none, [], none⟩

/-- The party alias table of `unify_party`, as association pairs in source
order. -/
def aliases : List (String × String) :=
  [("自", "自民"), ("自民党", "自民"),
   ("立", "立憲"), ("立憲民主党", "立憲"),
   ("維", "維新"), ("日本維新の会", "維新"),
   ("共", "共産"), ("共産党", "共産"),
   ("れ", "れいわ"), ("れいわ新選組", "れいわ"),
   ("保", "日保"), ("日本保守党", "日保"),
   ("諸", "諸派"), ("無所属連合", "諸派"), ("その他", "諸派"),
   ("無", "無所属"),
   ("公", "公明"), ("公明党", "公明"),
   ("社", "社民"), ("社民党", "社民"),
   ("国民民主党", "国民"),
   ("参政党", "参政"),
   ("みんなでつくる党", "みんつく"),
   ("NHK党", "N国"),
   ("再生の道", "再道"),
   ("チームみらい", "みらい"),
   ("日本改革党", "日改")]

/-- `unify_party`: `aliases.get(name, name)`. -/
def unify_party (name : String) : String :=
  match aliases.find? (fun p => p.1 = name) with
  | some p => p.2
  | none => name

/-- The fallback code list: `B01`..`B47` with `B32` removed and `C01`
appended. -/
def FALLBACK_CODES : List String :=
  (((List.range' 1 47).map
      (fun n => "B" ++ (if n < 10 then "0" else "") ++ toString n)).erase "B32")
    ++ ["C01"]

/-- The regex `/koho/([A-Z]\d{2})\.html` applied at the start of the text:
the captured three-character code when the pattern matches there. -/
def matchCode : List Char → Option String
  | '/' :: 'k' :: 'o' :: 'h' :: 'o' :: '/' :: c :: d1 :: d2 :: '.' :: 'h' :: 't' :: 'm' :: 'l' :: _ =>
    if ('A' ≤ c && c ≤ 'Z') && isNd d1 && isNd d2
    then some (String.mk [c, d1, d2]) else none
  | _ => none

/-- `re.search(r"/koho/([A-Z]\d{2})\.html", href)`: the capture of the
leftmost match, scanning candidate start positions left to right. -/
def extractCode : List Char → Option String
  | [] => none
  | c :: rest =>
    match matchCode (c :: rest) with
    | some s => some s
    | none => extractCode rest

/-- `get_district_codes`.  The input abstracts the index fetch: `none` when
`fetch(BASE)` returned the empty string (falsy), otherwise the `href`
attributes of the anchors of the fetched page. -/
def get_district_codes (index : Option (List String)) : List String :=
  match index with
  | none => FALLBACK_CODES
  | some hrefs =>
    let codes := dedupSort (hrefs.filterMap (fun h => extractCode h.data))
    if codes = [] then FALLBACK_CODES else codes

/-- District resolution from the page heading: the regex
`参院選\s*(.+?)候補者一覧` searched in the heading text, the capture then cut
before any `選挙区` and stripped; the caller-supplied default when there is
no heading or no match.  The lazy capture is the segment from the first
`参院選` (after skipping whitespace) to the next `候補者一覧` at distance at
least one; this models the regex on heading texts without embedded newlines
and with a nonempty capture, which is what the stripped single-line
headings of these pages give. -/
def resolveDistrict (h1Text : Option String) (default_district : String) : String :=
  match h1Text with
  | none => default_district
  | some t =>
    match findSub "参院選".data t.data with
    | none => default_district
    | some i =>
      let rest := (t.data.drop (i + 3)).dropWhile isPySpace
      match rest with
      | [] => default_district
      | _ :: rest1 =>
        match findSub "候補者一覧".data rest1 with
        | none => default_district
        | some j =>
          let captured := rest.take (j + 1)
          let beforeKu :=
            captured.take ((findSub "選挙区".data captured).getD captured.length)
          pyStrip (String.mk beforeKu)

/-- The leading bullet characters removed by `lstrip("●*◇・")`. -/
def isBulletChar (c : Char) : Bool :=
  c = '●' || c = '*' || c = '◇' || c = '・'

/-- The party-abbreviation extraction `re.match(r"([^\d現新前元]+)", s)`:
the longest leading run of characters that are neither digits nor status
markers; when that run is empty the regex does not match and the whole
token is kept. -/
def extractParty (party_status : String) : String :=
  let run := party_status.data.takeWhile
    (fun c => !(isNd c || c = '現' || c = '新' || c = '前' || c = '元'))
  if run.isEmpty then party_status else String.mk run

/-- The per-entry body of the loop in `parse_candidates`: strip leading
bullets, split on whitespace, locate the first purely numeric token as the
age, take the joined tokens before it as the name and the token after it as
the party/status token; `none` when the entry is skipped by the
`age_idx == -1 or age_idx + 1 >= len(parts)` guard. -/
def parseEntry (romanize : String → String)
    (text container_party district default_district : String) :
    Option AsahiRecord :=
  let parts := pySplitWs (text.data.dropWhile isBulletChar)
  match parts.findIdx? pyIsDigitStr with
  | none => none
  | some age_idx =>
    if age_idx + 1 ≥ parts.length then none
    else
      let name := String.join (parts.take age_idx)
      let age := parts.getD age_idx ""
      let party_status := parts.getD (age_idx + 1) ""
      let party := unify_party
        (if container_party ≠ "" then container_party
         else extractParty party_status)
      let is_proportional :=
        containsSub "比例".data district.data || pyStartsWith "C" default_district
      let senkyoku := if is_proportional then "比例" else district
      let todoufuken := if is_proportional then "" else district
      let candidate_id :=
        slugify_jp romanize (if senkyoku = "" then "proportional" else senkyoku)
          ++ "-" ++ slugify_jp romanize name
      some
        { id := candidate_id
          todoufuken := todoufuken
          senkyoku := senkyoku
          seitou := party
          title := name
          detail := age ++ "歳"
          age := age
          tubohantei := ""
          tubonaiyou := ""
          tuboURL := ""
          uraganehantei := ""
          uraganenaiyou := ""
          uraganeURL := "" }

/-- The terminating condition of the old-structure scan: blank text, a
footnote marker prefix, or the fixed phrase. -/
def oldBreak (t : String) : Bool :=
  t = "" || pyStartsWith "＊" t || containsSub "顔ぶれの見方".data t.data

/-- `parse_candidates(html, default_district)` of the Asahi script: resolve
the district from the heading, collect the entry texts (new structure:
`li` elements of the yoteisha containers, each paired with its container
heading; old structure: up to 200 following elements until the break
condition, paired with the empty container party), and parse each entry. -/
def parse_candidates (romanize : String → String)
    (page : AsahiPage) (default_district : String) : List AsahiRecord :=
  let district := resolveDistrict page.h1Text default_district
  let tags : List (String × String) :=
    if !page.containers.isEmpty then
      page.containers.flatMap (fun c => c.items.map (fun li => (li, c.party)))
    else
      match page.oldSection with
      | none => []
      | some texts =>
        ((texts.take 200).takeWhile (fun t => !oldBreak t)).map (fun t => (t, ""))
  tags.filterMap (fun p => parseEntry romanize p.1 p.2 district default_district)

/-- The record-producing part of `main`: scrape every discovered code with
itself as default district, accumulate the rows, and either report no data
(`none`, no file written) or write all rows at once (`some rows`). -/
def main (romanize : String → String)
    (codes : List String) (pageOf : String → AsahiPage) :
    Option (List AsahiRecord) :=
  let all_rows := codes.flatMap (fun code => parse_candidates romanize (pageOf code) code)
  if all_rows.isEmpty then none else some all_rows

end Asahi

/-! ## Senkyo.com variant (`fetch_saninsen2025_senkyo.py`) -/

namespace Senkyo

/-- Output row of the senkyo.com parser (keys of the dict built in
`parse_candidates`, in source order; this schema adds `yomi`). -/
structure SenkyoRecord where
  id : String
  todoufuken : String
  senkyoku : String
  seitou : String
  title : String
  yomi : String
  detail : String
  age : String
  tubohantei : String
  tubonaiyou : String
  tuboURL : String
  uraganehantei : String
  uraganenaiyou : String
  uraganeURL : String
deriving DecidableEq

/-- The parts of one `section.m_senkyo_result_data` element that the parser
reads once the heading link exists: the direct text of the link (already
stripped), the text of the kana span (empty when the span is absent, like
the `kana` variable of the script), the text of the party circle element
when present, and the text of the age span when present. -/
structure SenkyoEntry where
  kanji : String
  kana : String
  party : Option String
  ageText : Option String
deriving DecidableEq

/-- The party alias table of the senkyo.com `unify_party`, in source
order. -/
def aliases : List (String × String) :=
  [("自民党", "自民"),
   ("立憲民主党", "立憲"),
   ("日本維新の会", "維新"),
   ("日本共産党", "共産"),
   ("れいわ新選組", "れいわ"),
   ("日本保守党", "日保"),
   ("無所属連合", "諸派"), ("その他", "諸派"),
   ("無所属", "無所属"),
   ("公明党", "公明"),
   ("社民党", "社民"),
   ("国民民主党", "国民"),
   ("参政党", "参政"),
   ("みんなでつくる党", "みんつく"),
   ("NHK党", "N国"),
   ("再生の道", "再道"),
   ("チームみらい", "みらい"),
   ("日本改革党", "日改")]

/-- `unify_party`: `aliases.get(name, name)`. -/
def unify_party (name : String) : String :=
  match aliases.find? (fun p => p.1 = name) with
  | some p => p.2
  | none => name

/-- `get_list_paths`: anchors of the top page filtered by substring and
passed through `sorted(set(...))`.  The input is the list of `href`
attributes of the fetched top page; when the fetch returns the empty
string BeautifulSoup finds no anchors and the input is the empty list.
There is no fallback in this variant. -/
def get_list_paths (hrefs : List String) : List String × List String :=
  (dedupSort (hrefs.filter (fun h => containsSub "/prefecture/".data h.data)),
   dedupSort (hrefs.filter (fun h => containsSub "/hirei_party/".data h.data)))

/-- `re.search(r"(\d+)", s)`: the first maximal run of digits. -/
def firstDigitRun : List Char → Option (List Char)
  | [] => none
  | c :: rest =>
    if isNd c then some (c :: rest.takeWhile isNd) else firstDigitRun rest

/-- Python `str.split()[0]` used by the yomi fallback: the first
whitespace-delimited token (empty when there is none; on the real pages the
link text is nonempty, and on an all-whitespace text the script itself
would raise). -/
def firstToken (s : String) : String :=
  String.mk ((s.data.dropWhile isPySpace).takeWhile (fun c => !isPySpace c))

/-- The per-section body of the senkyo.com `parse_candidates` loop, for a
section whose heading link exists. -/
def parseEntry (romanize hira : String → String)
    (e : SenkyoEntry) (senkyoku : String) (is_proportional : Bool) :
    SenkyoRecord :=
  let yomi :=
    if e.kana ≠ "" then hira (String.mk (e.kana.data.filter (fun c => c ≠ ' ')))
    else hira (firstToken e.kanji)
  let party :=
    match e.party with
    | some t => unify_party t
    | none => ""
  let age :=
    match e.ageText with
    | none => ""
    | some t =>
      match firstDigitRun t.data with
      | none => ""
      | some run => String.mk run
  let senk := if is_proportional then "比例" else senkyoku
  let pref := if is_proportional then "" else senkyoku
  let cid :=
    slugify_jp romanize (if senk = "" then "proportional" else senk)
      ++ "-" ++ slugify_jp romanize e.kanji
  { id := cid
    todoufuken := pref
    senkyoku := senk
    seitou := party
    title := e.kanji
    yomi := yomi
    detail := if age ≠ "" then age ++ "歳" else ""
    age := age
    tubohantei := ""
    tubonaiyou := ""
    tuboURL := ""
    uraganehantei := ""
    uraganenaiyou := ""
    uraganeURL := "" }

/-- `parse_candidates(html, senkyoku, is_proportional)`: one element per
`section.m_senkyo_result_data` of the page, `none` standing for a section
without a heading link (which the loop skips with `continue`).  The empty
string parses to a page with no sections. -/
def parse_candidates (romanize hira : String → String)
    (sections : List (Option SenkyoEntry))
    (senkyoku : String) (is_proportional : Bool) : List SenkyoRecord :=
  sections.filterMap (fun s => s.map (fun e => parseEntry romanize hira e senkyoku is_proportional))

/-- The record-producing part of `main`: scrape the prefecture paths (with
the extracted or path-derived prefecture name, not proportional), then the
hirei paths (with the path-derived party name, proportional), accumulate
all rows, and either report no data (`none`, no file written) or write all
rows at once (`some rows`).  `sectionsOf` gives the sections of the page a
path fetches, `prefNameOf` the resolved district label of a prefecture
path, `partyNameOf` the path-derived party label of a hirei path. -/
def main (romanize hira : String → String)
    (pref_paths hirei_paths : List String)
    (sectionsOf : String → List (Option SenkyoEntry))
    (prefNameOf partyNameOf : String → String) :
    Option (List SenkyoRecord) :=
  let prefRows := pref_paths.flatMap
    (fun p => parse_candidates romanize hira (sectionsOf p) (prefNameOf p) false)
  let hireiRows := hirei_paths.flatMap
    (fun p => parse_candidates romanize hira (sectionsOf p) (partyNameOf p) true)
  let all_rows := prefRows ++ hireiRows
  if all_rows.isEmpty then none else some all_rows

end Senkyo

/-! ## Concrete sample inputs used by the witness theorems -/

/-- A one-container Asahi page with a single well-formed entry. -/
def samplePage : Asahi.AsahiPage := ⟨none, [⟨"自民党", ["山田太郎 ５２ 自現①"]⟩], none⟩

/-- The record the Asahi parser produces from `samplePage` under the
constant romanization `fun _ => "x"`. -/
def sampleRecord : Asahi.AsahiRecord :=
  ⟨"x-x", "B13", "B13", "自民", "山田太郎", "５２歳", "５２", "", "", "", "", "", ""⟩

/-- A well-formed senkyo.com section entry. -/
def sampleEntry : Senkyo.SenkyoEntry := ⟨"山田 太郎", "やまだ たろう", some "自民党", some "52歳"⟩

/-- The record the senkyo.com parser produces from `sampleEntry` for
district 東京, not proportional, under the constant conversions
`fun _ => "x"` and `fun _ => "y"`. -/
def sampleSenkyoRecord : Senkyo.SenkyoRecord :=
  ⟨"x-x", "東京", "東京", "自民", "山田 太郎", "y", "52歳", "52", "", "", "", "", "", ""⟩

/-! ## Helper lemmas -/

theorem dropWhile_head_false {α} (p : α → Bool) :
    ∀ (l : List α) {c : α} {t : List α}, l.dropWhile p = c :: t → p c = false := by
  intro l
  induction l with
  | nil => intro c t h; cases h
  | cons a rest ih =>
    intro c t h
    rw [List.dropWhile_cons] at h
    by_cases ha : p a = true
    · rw [if_pos ha] at h; exact ih h
    · rw [if_neg ha] at h
      cases h
      exact Bool.eq_false_iff.mpr ha

theorem hyphenateAux_mem :
    ∀ (l : List Char) (s : Bool), ∀ c ∈ hyphenateAux s l, isAlnumLC c = true ∨ c = '-' := by
  intro l
  induction l with
  | nil => intro s c hc; cases hc
  | cons a rest ih =>
    intro s c hc
    by_cases ha : isAlnumLC a = true
    · rw [hyphenateAux, if_pos ha] at hc
      rcases List.mem_cons.mp hc with rfl | hc
      · exact Or.inl ha
      · exact ih false c hc
    · rw [hyphenateAux, if_neg ha] at hc
      cases s with
      | true => exact ih true c (by simpa using hc)
      | false =>
        rcases List.mem_cons.mp (by simpa using hc) with rfl | hc2
        · exact Or.inr rfl
        · exact ih true c hc2

theorem hyphenateAux_true_head :
    ∀ (l : List Char) {c : Char} {t : List Char},
      hyphenateAux true l = c :: t → isAlnumLC c = true := by
  intro l
  induction l with
  | nil => intro c t h; cases h
  | cons a rest ih =>
    intro c t h
    by_cases ha : isAlnumLC a = true
    · rw [hyphenateAux, if_pos ha] at h
      cases h
      exact ha
    · rw [hyphenateAux, if_neg ha] at h
      exact ih (by simpa using h)

theorem hyphenateAux_chain (l : List Char) :
    ∀ s : Bool, List.Chain' (fun a b => ¬(a = '-' ∧ b = '-')) (hyphenateAux s l) := by
  induction l with
  | nil => intro s; exact List.chain'_nil
  | cons a rest ih =>
    intro s
    by_cases ha : isAlnumLC a = true
    · rw [hyphenateAux, if_pos ha]
      rw [List.chain'_cons']
      refine ⟨?_, ih false⟩
      intro y _
      rintro ⟨rfl, -⟩
      simp [isAlnumLC] at ha
    · rw [hyphenateAux, if_neg ha]
      cases s with
      | true => simpa using ih true
      | false =>
        simp only [if_neg, Bool.false_eq_true, if_false]
        rw [List.chain'_cons']
        refine ⟨?_, ih true⟩
        intro y hy
        rintro ⟨-, rfl⟩
        cases hh : hyphenateAux true rest with
        | nil => rw [hh] at hy; cases hy
        | cons c t =>
          rw [hh] at hy
          simp only [List.head?_cons, Option.mem_def, Option.some.injEq] at hy
          subst hy
          have := hyphenateAux_true_head rest hh
          simp [isAlnumLC] at this

theorem slugCore_spec (romaji : List Char) :
    (∀ c ∈ slugCore romaji, isAlnumLC c = true ∨ c = '-') ∧
    List.Chain' (fun a b => ¬(a = '-' ∧ b = '-')) (slugCore romaji) ∧
    (slugCore romaji).head? ≠ some '-' ∧
    (slugCore romaji).getLast? ≠ some '-' := by
  have hcore : slugCore romaji =
      ((((hyphenateAux false (romaji.map Char.toLower)).dropWhile (· = '-')).reverse.dropWhile
          (· = '-')).reverse) := rfl
  set h0 := hyphenateAux false (romaji.map Char.toLower) with hh0
  set dw := h0.dropWhile (· = '-') with hdw
  set res := ((dw.reverse.dropWhile (· = '-')).reverse) with hres
  have hpre : res <+: dw := by
    rw [hres]
    have hsfx : dw.reverse.dropWhile (· = '-') <:+ dw.reverse := List.dropWhile_suffix _
    have h2 := List.reverse_prefix.mpr hsfx
    rwa [List.reverse_reverse] at h2
  have hsuf : dw <:+ h0 := List.dropWhile_suffix _
  refine ⟨?_, ?_, ?_, ?_⟩
  · intro c hc
    have hc1 : c ∈ dw := hpre.sublist.subset hc
    have hc2 : c ∈ h0 := hsuf.sublist.subset hc1
    exact hyphenateAux_mem _ false c hc2
  · have hch0 : List.Chain' (fun a b => ¬(a = '-' ∧ b = '-')) dw :=
      (hyphenateAux_chain _ false).suffix hsuf
    have hchrev : List.Chain' (fun a b => ¬(a = '-' ∧ b = '-')) dw.reverse :=
      List.chain'_reverse.mpr (hch0.imp (fun a b hab ⟨h1, h2⟩ => hab ⟨h2, h1⟩))
    have hchdrop : List.Chain' (fun a b => ¬(a = '-' ∧ b = '-'))
        (dw.reverse.dropWhile (· = '-')) :=
      hchrev.suffix (List.dropWhile_suffix _)
    rw [hcore]
    exact List.chain'_reverse.mpr (hchdrop.imp (fun a b hab ⟨h1, h2⟩ => hab ⟨h2, h1⟩))
  · intro hhd
    rw [hcore] at hhd
    cases hrc : res with
    | nil => rw [hrc] at hhd; cases hhd
    | cons c t =>
      rw [hrc] at hhd
      simp only [List.head?_cons, Option.some.injEq] at hhd
      subst hhd
      obtain ⟨u, hu⟩ := hpre
      rw [hrc] at hu
      have hdweq : h0.dropWhile (· = '-') = '-' :: (t ++ u) := by
        rw [← hdw, ← hu]; rfl
      have hfalse := dropWhile_head_false _ h0 hdweq
      simp at hfalse
  · intro hlast
    rw [hcore] at hlast
    have hswap : res.getLast? = (dw.reverse.dropWhile (· = '-')).head? := by
      rw [hres, List.getLast?_reverse]
    rw [hswap] at hlast
    cases hdrc : dw.reverse.dropWhile (· = '-') with
    | nil => rw [hdrc] at hlast; cases hlast
    | cons c t =>
      rw [hdrc] at hlast
      simp only [List.head?_cons, Option.some.injEq] at hlast
      subst hlast
      have hfalse := dropWhile_head_false _ dw.reverse hdrc
      simp at hfalse

theorem char_toNat_inj {c d : Char} (h : c.toNat = d.toNat) : c = d :=
  Char.ext (UInt32.ext h)

theorem charListLe_total : ∀ a b : List Char, charListLe a b = true ∨ charListLe b a = true
  | [], _ => Or.inl rfl
  | _ :: _, [] => Or.inr rfl
  | c :: cs, d :: ds => by
    by_cases hcd : c = d
    · subst hcd
      simp only [charListLe, if_pos rfl]
      exact charListLe_total cs ds
    · have hdc : ¬ d = c := fun h => hcd h.symm
      simp only [charListLe, if_neg hcd, if_neg hdc, decide_eq_true_eq]
      rcases Nat.lt_trichotomy c.toNat d.toNat with h | h | h
      · exact Or.inl h
      · exact absurd (char_toNat_inj h) hcd
      · exact Or.inr h

theorem charListLe_trans :
    ∀ a b c : List Char, charListLe a b = true → charListLe b c = true → charListLe a c = true
  | [], _, _, _, _ => rfl
  | _ :: _, [], _, hab, _ => by cases hab
  | _ :: _, _ :: _, [], _, hbc => by cases hbc
  | x :: xs, y :: ys, z :: zs, hab, hbc => by
    by_cases hxy : x = y <;> by_cases hyz : y = z
    · subst hxy; subst hyz
      simp only [charListLe, if_pos rfl] at hab hbc ⊢
      exact charListLe_trans xs ys zs hab hbc
    · subst hxy
      simp only [charListLe, if_pos rfl, if_neg hyz] at hbc ⊢
      exact hbc
    · subst hyz
      simp only [charListLe, if_neg hxy] at hab ⊢
      exact hab
    · simp only [charListLe, if_neg hxy, if_neg hyz, decide_eq_true_eq] at hab hbc
      have hlt := Nat.lt_trans hab hbc
      have hxz : ¬ x = z := fun h => by rw [h] at hlt; exact Nat.lt_irrefl _ hlt
      simp only [charListLe, if_neg hxz, decide_eq_true_eq]
      exact hlt

instance strLeIsTotal : IsTotal String (fun a b => strLe a b = true) :=
  ⟨fun a b => charListLe_total a.data b.data⟩

instance strLeIsTrans : IsTrans String (fun a b => strLe a b = true) :=
  ⟨fun a b c hab hbc => charListLe_trans a.data b.data c.data hab hbc⟩

theorem dedupSort_sorted (l : List String) :
    List.Sorted (fun a b => strLe a b = true) (dedupSort l) :=
  List.sorted_insertionSort _ _

theorem fallback_nonempty : Asahi.FALLBACK_CODES ≠ [] := by decide

theorem fallback_sorted : List.Sorted (fun a b => strLe a b = true) Asahi.FALLBACK_CODES := by
  decide

theorem fetchList_all_fail (l : List AttemptResult)
    (h : ∀ a ∈ l, isRetryFailure a = true) : fetchList l = "" := by
  induction l with
  | nil => rfl
  | cons a rest ih =>
    cases a with
    | transportError =>
      exact ih (fun x hx => h x (List.mem_cons_of_mem _ hx))
    | response s t =>
      have hs := h _ (List.mem_cons_self _ _)
      simp only [isRetryFailure, Bool.and_eq_true, decide_eq_true_eq, ne_eq] at hs
      obtain ⟨⟨hne, h4⟩, h5⟩ := hs
      simp only [fetchList, if_neg hne, if_pos (And.intro h4 h5)]
      exact ih (fun x hx => h x (List.mem_cons_of_mem _ hx))

theorem asahi_unify_canonical : ∀ p ∈ Asahi.aliases, Asahi.unify_party p.2 = p.2 := by decide

theorem senkyo_unify_canonical : ∀ p ∈ Senkyo.aliases, Senkyo.unify_party p.2 = p.2 := by decide

theorem asahi_parseEntry_fields {romanize : String → String}
    {text container_party district default_district : String} {r : Asahi.AsahiRecord}
    (h : Asahi.parseEntry romanize text container_party district default_district = some r) :
    r.tubohantei = "" ∧ r.tubonaiyou = "" ∧ r.tuboURL = "" ∧ r.uraganehantei = "" ∧
    r.uraganenaiyou = "" ∧ r.uraganeURL = "" ∧
    ((r.senkyoku = "比例" ∧ r.todoufuken = "") ∨ r.todoufuken = r.senkyoku) := by
  simp only [Asahi.parseEntry] at h
  split at h
  · cases h
  · split at h
    · cases h
    · obtain rfl := (Option.some.inj h).symm
      refine ⟨rfl, rfl, rfl, rfl, rfl, rfl, ?_⟩
      by_cases hp :
          (containsSub "比例".data district.data || pyStartsWith "C" default_district) = true
      · exact Or.inl ⟨by simp [hp], by simp [hp]⟩
      · exact Or.inr (by simp [hp])

theorem senkyo_parseEntry_fields (romanize hira : String → String)
    (e : Senkyo.SenkyoEntry) (senkyoku : String) (b : Bool) :
    (Senkyo.parseEntry romanize hira e senkyoku b).tubohantei = "" ∧
    (Senkyo.parseEntry romanize hira e senkyoku b).tubonaiyou = "" ∧
    (Senkyo.parseEntry romanize hira e senkyoku b).tuboURL = "" ∧
    (Senkyo.parseEntry romanize hira e senkyoku b).uraganehantei = "" ∧
    (Senkyo.parseEntry romanize hira e senkyoku b).uraganenaiyou = "" ∧
    (Senkyo.parseEntry romanize hira e senkyoku b).uraganeURL = "" ∧
    (((Senkyo.parseEntry romanize hira e senkyoku b).senkyoku = "比例" ∧
      (Senkyo.parseEntry romanize hira e senkyoku b).todoufuken = "") ∨
     (Senkyo.parseEntry romanize hira e senkyoku b).todoufuken =
       (Senkyo.parseEntry romanize hira e senkyoku b).senkyoku) := by
  refine ⟨rfl, rfl, rfl, rfl, rfl, rfl, ?_⟩
  cases b with
  | true => exact Or.inl ⟨by simp [Senkyo.parseEntry], by simp [Senkyo.parseEntry]⟩
  | false => exact Or.inr (by simp [Senkyo.parseEntry])

theorem exactlyOne_helper {s t : String} (h : (s = "比例" ∧ t = "") ∨ t = s) :
    ((s = "比例" ∧ t = "") ∧ ¬ t = s) ∨ (t = s ∧ ¬(s = "比例" ∧ t = "")) := by
  rcases h with ⟨hs, ht⟩ | h
  · refine Or.inl ⟨⟨hs, ht⟩, ?_⟩
    rw [hs, ht]
    decide
  · refine Or.inr ⟨h, ?_⟩
    rintro ⟨hs, ht⟩
    rw [ht, hs] at h
    exact absurd h (by decide)

/-! ## Claim theorems -/

/-- C1 (counterexample): the claim asserts that the page-set discoverer of
every variant returns a non-empty collection for every outcome of fetching
the index page.  For the senkyo.com variant this fails: when the index
fetch fails the empty string parses to a page with no anchors, and
`get_list_paths` returns two empty lists — there is no fallback
enumeration in that script. -/
theorem senkyo_get_list_paths_empty_on_no_links :
    Senkyo.get_list_paths [] = ([], []) := rfl

/-- C1 (amended): the Asahi variant `get_district_codes` always returns a
non-empty list, sorted in code-point order, falling back to the static
`FALLBACK_CODES` when the index fetch fails or link discovery yields
nothing; the senkyo.com variant `get_list_paths` returns sorted lists, but
they may be empty since that variant has no fallback. -/
theorem discovery_nonempty_sorted :
    (∀ index : Option (List String),
        Asahi.get_district_codes index ≠ [] ∧
        List.Sorted (fun a b => strLe a b = true) (Asahi.get_district_codes index)) ∧
    (∀ hrefs : List String,
        List.Sorted (fun a b => strLe a b = true) (Senkyo.get_list_paths hrefs).1 ∧
        List.Sorted (fun a b => strLe a b = true) (Senkyo.get_list_paths hrefs).2) := by
  constructor
  · intro index
    cases index with
    | none => exact ⟨fallback_nonempty, fallback_sorted⟩
    | some hrefs =>
      simp only [Asahi.get_district_codes]
      split
      · exact ⟨fallback_nonempty, fallback_sorted⟩
      · next hne => exact ⟨hne, dedupSort_sorted _⟩
  · intro hrefs
    exact ⟨dedupSort_sorted _, dedupSort_sorted _⟩

/-- C1 (witness): the amended statement evaluated at the fetch-failure
index outcome and at an empty anchor list. -/
theorem discovery_nonempty_sorted_witness :
    (Asahi.get_district_codes none ≠ [] ∧
      List.Sorted (fun a b => strLe a b = true) (Asahi.get_district_codes none)) ∧
    (List.Sorted (fun a b => strLe a b = true) (Senkyo.get_list_paths []).1 ∧
      List.Sorted (fun a b => strLe a b = true) (Senkyo.get_list_paths []).2) :=
  ⟨discovery_nonempty_sorted.1 none, discovery_nonempty_sorted.2 []⟩

/-- C2 (counterexample): on the exact entry text `●山田太郎５２自現①` of the
claim there is no whitespace, so `re.split(r"\s+", ...)` yields the single
token `山田太郎５２自現①`, which is not purely numeric; the age guard fires
and the Asahi parser produces no record at all, extracting neither name nor
age. -/
theorem asahi_unspaced_entry_yields_no_record :
    Asahi.parseEntry (fun s => s) "●山田太郎５２自現①" "" "東京" "B13" = none := rfl

/-- C2 (amended): on the whitespace-separated entry text
`●山田太郎 ５２ 自現①` the Asahi parser extracts name 山田太郎, age ５２ and
party token 自現①, whose party-abbreviation extraction yields 自 (then
normalized to 自民 in the record); on the unspaced text of the claim the
entry is skipped instead. -/
theorem asahi_spaced_entry_parsed :
    (∀ romanize : String → String,
      (Asahi.parseEntry romanize "●山田太郎 ５２ 自現①" "" "東京" "B13").map
        (fun r => (r.title, r.age, r.seitou)) = some ("山田太郎", "５２", "自民")) ∧
    Asahi.extractParty "自現①" = "自" ∧
    Asahi.unify_party "自" = "自民" :=
  ⟨fun _ => rfl, rfl, rfl⟩

/-- C3: a 404 response makes `fetch` return the empty string immediately,
whatever outcomes the remaining retry budget would have produced, and the
empty string parses — in either variant — to the empty document, which
yields an empty candidate list, so the surrounding loop just continues. -/
theorem fetch_404_empty_and_empty_page_parses_empty :
    (∀ (t : String) (rest : List AttemptResult),
        fetchList (.response 404 t :: rest) = "") ∧
    (∀ (romanize : String → String) (dflt : String),
        Asahi.parse_candidates romanize Asahi.emptyAsahiPage dflt = []) ∧
    (∀ (romanize hira : String → String) (senkyoku : String) (b : Bool),
        Senkyo.parse_candidates romanize hira [] senkyoku b = []) :=
  ⟨fun _ _ => rfl, fun _ _ => rfl, fun _ _ _ _ => rfl⟩

/-- C4: when every fetched page parses to the empty document — in
particular when every fetch returned empty content — the accumulated row
list is empty and `main` of either variant returns the no-data report
(`none`) without producing an output file; a file is only ever written with
the complete row list at once. -/
theorem no_rows_no_file_written :
    (∀ (romanize : String → String) (codes : List String)
        (pageOf : String → Asahi.AsahiPage),
        (∀ code, pageOf code = Asahi.emptyAsahiPage) →
        Asahi.main romanize codes pageOf = none) ∧
    (∀ (romanize hira : String → String) (pref_paths hirei_paths : List String)
        (sectionsOf : String → List (Option Senkyo.SenkyoEntry))
        (prefNameOf partyNameOf : String → String),
        (∀ p, sectionsOf p = []) →
        Senkyo.main romanize hira pref_paths hirei_paths sectionsOf prefNameOf partyNameOf
          = none) := by
  constructor
  · intro romanize codes pageOf h
    have hall : codes.flatMap (fun code =>
        Asahi.parse_candidates romanize (pageOf code) code) = [] :=
      List.flatMap_eq_nil_iff.mpr (fun code _ => by rw [h code]; rfl)
    simp [Asahi.main, hall]
  · intro romanize hira pref_paths hirei_paths sectionsOf prefNameOf partyNameOf h
    have hpref : pref_paths.flatMap (fun p =>
        Senkyo.parse_candidates romanize hira (sectionsOf p) (prefNameOf p) false) = [] :=
      List.flatMap_eq_nil_iff.mpr (fun p _ => by rw [h p]; rfl)
    have hhirei : hirei_paths.flatMap (fun p =>
        Senkyo.parse_candidates romanize hira (sectionsOf p) (partyNameOf p) true) = [] :=
      List.flatMap_eq_nil_iff.mpr (fun p _ => by rw [h p]; rfl)
    simp [Senkyo.main, hpref, hhirei]

/-- C4 (witness): both mains at concrete page sets whose every page is
empty. -/
theorem no_rows_no_file_written_witness :
    Asahi.main (fun s => s) ["B01", "C01"] (fun _ => Asahi.emptyAsahiPage) = none ∧
    Senkyo.main (fun s => s) (fun s => s) ["/prefecture/13"] ["/hirei_party/1"]
      (fun _ => []) (fun _ => "東京") (fun _ => "1") = none :=
  ⟨no_rows_no_file_written.1 (fun s => s) ["B01", "C01"] _ (fun _ => rfl),
   no_rows_no_file_written.2 (fun s => s) (fun s => s) _ _ _ _ _ (fun _ => rfl)⟩

/-- C5: for every romanization and every input string, `slugify_jp`
returns a string of lowercase ASCII letters, ASCII digits and hyphens
only, with no two consecutive hyphens and no hyphen at either end. -/
theorem slugify_jp_charset (romanize : String → String) (text : String) :
    ((slugify_jp romanize text).data.all (fun c => isAlnumLC c || c == '-') = true) ∧
    List.Chain' (fun a b => ¬(a = '-' ∧ b = '-')) (slugify_jp romanize text).data ∧
    (slugify_jp romanize text).data.head? ≠ some '-' ∧
    (slugify_jp romanize text).data.getLast? ≠ some '-' := by
  have hdata : (slugify_jp romanize text).data = slugCore (romanize text).data := rfl
  obtain ⟨hmem, hchain, hhd, hlast⟩ := slugCore_spec (romanize text).data
  refine ⟨?_, hdata ▸ hchain, hdata ▸ hhd, hdata ▸ hlast⟩
  rw [hdata, List.all_eq_true]
  intro c hc
  rcases hmem c hc with h | h
  · simp [h]
  · simp [h]

/-- C5 (witness): the statement evaluated at a concrete romanization whose
output mixes uppercase, punctuation and spacing. -/
theorem slugify_jp_charset_witness :
    ((slugify_jp (fun _ => "?Ab cd!") "山田").data.all
        (fun c => isAlnumLC c || c == '-') = true) ∧
    List.Chain' (fun a b => ¬(a = '-' ∧ b = '-'))
      (slugify_jp (fun _ => "?Ab cd!") "山田").data ∧
    (slugify_jp (fun _ => "?Ab cd!") "山田").data.head? ≠ some '-' ∧
    (slugify_jp (fun _ => "?Ab cd!") "山田").data.getLast? ≠ some '-' :=
  slugify_jp_charset (fun _ => "?Ab cd!") "山田"

/-- C6: party normalization is a deterministic function and idempotent in
both variants; in particular every canonical value of either alias table is
mapped to itself. -/
theorem unify_party_idempotent :
    (∀ x, Asahi.unify_party (Asahi.unify_party x) = Asahi.unify_party x) ∧
    (∀ x, Senkyo.unify_party (Senkyo.unify_party x) = Senkyo.unify_party x) ∧
    Asahi.aliases.all (fun p => Asahi.unify_party p.2 == p.2) = true ∧
    Senkyo.aliases.all (fun p => Senkyo.unify_party p.2 == p.2) = true := by
  refine ⟨?_, ?_, by decide, by decide⟩
  · intro x
    cases h : Asahi.aliases.find? (fun p => p.1 = x) with
    | none =>
      have hx : Asahi.unify_party x = x := by unfold Asahi.unify_party; rw [h]
      rw [hx, hx]
    | some p =>
      have hp : p ∈ Asahi.aliases := List.mem_of_find?_eq_some h
      have hx : Asahi.unify_party x = p.2 := by unfold Asahi.unify_party; rw [h]
      rw [hx]
      exact asahi_unify_canonical p hp
  · intro x
    cases h : Senkyo.aliases.find? (fun p => p.1 = x) with
    | none =>
      have hx : Senkyo.unify_party x = x := by unfold Senkyo.unify_party; rw [h]
      rw [hx, hx]
    | some p =>
      have hp : p ∈ Senkyo.aliases := List.mem_of_find?_eq_some h
      have hx : Senkyo.unify_party x = p.2 := by unfold Senkyo.unify_party; rw [h]
      rw [hx]
      exact senkyo_unify_canonical p hp

/-- C7: an Asahi entry whose whitespace-split token list has no purely
numeric token, or whose first purely numeric token is the last token,
produces no record: `parseEntry` returns `none` for exactly that entry,
and since the page parser maps entries independently the rest of the page
is unaffected. -/
theorem asahi_malformed_entry_skipped (romanize : String → String)
    (text container_party district default_district : String)
    (h : (∀ p ∈ pySplitWs (text.data.dropWhile Asahi.isBulletChar), pyIsDigitStr p = false)
       ∨ ∃ i, (pySplitWs (text.data.dropWhile Asahi.isBulletChar)).findIdx? pyIsDigitStr
                = some i ∧
              i + 1 = (pySplitWs (text.data.dropWhile Asahi.isBulletChar)).length) :
    Asahi.parseEntry romanize text container_party district default_district = none := by
  simp only [Asahi.parseEntry]
  rcases h with h | ⟨i, hi, hlen⟩
  · rw [List.findIdx?_eq_none_iff.mpr h]
  · rw [hi]
    simp [← hlen]

/-- C7 (witness): a heading-like row with no numeric token is skipped. -/
theorem asahi_malformed_entry_skipped_witness :
    Asahi.parseEntry (fun s => s) "●見出し" "" "東京" "B01" = none :=
  asahi_malformed_entry_skipped (fun s => s) "●見出し" "" "東京" "B01" (Or.inl (by decide))

/-- C8: for every sequence of attempt outcomes in which each attempt of the
retry budget fails with a transport error or a non-404 HTTP error, `fetch`
returns the empty string; the embedded `fetch` is a total function, so no
exception reaches the caller. -/
theorem fetch_never_raises_returns_empty (attempt : Nat → AttemptResult) (retry : Nat)
    (h : ∀ i < retry, isRetryFailure (attempt i) = true) :
    fetch attempt retry = "" := by
  apply fetchList_all_fail
  intro a ha
  simp only [List.mem_map, List.mem_range] at ha
  obtain ⟨i, hi, rfl⟩ := ha
  exact h i hi

/-- C8 (witness): three failing attempts (exception, 500, 403) with the
default retry count. -/
theorem fetch_never_raises_returns_empty_witness :
    fetch (fun i => if i = 0 then .transportError else
      if i = 1 then .response 500 "err" else .response 403 "forbidden") 3 = "" :=
  fetch_never_raises_returns_empty _ 3 (by decide)

/-- C9: every record either parser produces has all six annotation
placeholder fields equal to the empty string. -/
theorem placeholder_fields_always_empty :
    (∀ (romanize : String → String) (page : Asahi.AsahiPage) (dflt : String)
        (r : Asahi.AsahiRecord), r ∈ Asahi.parse_candidates romanize page dflt →
        r.tubohantei = "" ∧ r.tubonaiyou = "" ∧ r.tuboURL = "" ∧
        r.uraganehantei = "" ∧ r.uraganenaiyou = "" ∧ r.uraganeURL = "") ∧
    (∀ (romanize hira : String → String) (sections : List (Option Senkyo.SenkyoEntry))
        (senkyoku : String) (b : Bool) (r : Senkyo.SenkyoRecord),
        r ∈ Senkyo.parse_candidates romanize hira sections senkyoku b →
        r.tubohantei = "" ∧ r.tubonaiyou = "" ∧ r.tuboURL = "" ∧
        r.uraganehantei = "" ∧ r.uraganenaiyou = "" ∧ r.uraganeURL = "") := by
  constructor
  · intro romanize page dflt r hr
    simp only [Asahi.parse_candidates, List.mem_filterMap] at hr
    obtain ⟨p, -, hsome⟩ := hr
    obtain ⟨h1, h2, h3, h4, h5, h6, -⟩ := asahi_parseEntry_fields hsome
    exact ⟨h1, h2, h3, h4, h5, h6⟩
  · intro romanize hira sections senkyoku b r hr
    simp only [Senkyo.parse_candidates, List.mem_filterMap] at hr
    obtain ⟨o, -, hsome⟩ := hr
    cases o with
    | none => cases hsome
    | some e =>
      obtain rfl := (Option.some.inj hsome).symm
      obtain ⟨h1, h2, h3, h4, h5, h6, -⟩ := senkyo_parseEntry_fields romanize hira e senkyoku b
      exact ⟨h1, h2, h3, h4, h5, h6⟩

/-- C9 (witness): the record parsed from the concrete sample page. -/
theorem placeholder_fields_always_empty_witness :
    sampleRecord.tubohantei = "" ∧ sampleRecord.tubonaiyou = "" ∧
    sampleRecord.tuboURL = "" ∧ sampleRecord.uraganehantei = "" ∧
    sampleRecord.uraganenaiyou = "" ∧ sampleRecord.uraganeURL = "" :=
  placeholder_fields_always_empty.1 (fun _ => "x") samplePage "B13" sampleRecord (by decide)

/-- C10: every record either parser produces satisfies exactly one of
(a) proportional: `senkyoku` is the literal 比例 and `todoufuken` is empty;
(b) non-proportional: `todoufuken` equals `senkyoku` (both the resolved
district). -/
theorem district_fields_exactly_one :
    (∀ (romanize : String → String) (page : Asahi.AsahiPage) (dflt : String)
        (r : Asahi.AsahiRecord), r ∈ Asahi.parse_candidates romanize page dflt →
        ((r.senkyoku = "比例" ∧ r.todoufuken = "") ∧ ¬ r.todoufuken = r.senkyoku) ∨
        (r.todoufuken = r.senkyoku ∧ ¬(r.senkyoku = "比例" ∧ r.todoufuken = ""))) ∧
    (∀ (romanize hira : String → String) (sections : List (Option Senkyo.SenkyoEntry))
        (senkyoku : String) (b : Bool) (r : Senkyo.SenkyoRecord),
        r ∈ Senkyo.parse_candidates romanize hira sections senkyoku b →
        ((r.senkyoku = "比例" ∧ r.todoufuken = "") ∧ ¬ r.todoufuken = r.senkyoku) ∨
        (r.todoufuken = r.senkyoku ∧ ¬(r.senkyoku = "比例" ∧ r.todoufuken = ""))) := by
  constructor
  · intro romanize page dflt r hr
    simp only [Asahi.parse_candidates, List.mem_filterMap] at hr
    obtain ⟨p, -, hsome⟩ := hr
    obtain ⟨-, -, -, -, -, -, hshape⟩ := asahi_parseEntry_fields hsome
    exact exactlyOne_helper hshape
  · intro romanize hira sections senkyoku b r hr
    simp only [Senkyo.parse_candidates, List.mem_filterMap] at hr
    obtain ⟨o, -, hsome⟩ := hr
    cases o with
    | none => cases hsome
    | some e =>
      obtain rfl := (Option.some.inj hsome).symm
      obtain ⟨-, -, -, -, -, -, hshape⟩ :=
        senkyo_parseEntry_fields romanize hira e senkyoku b
      exact exactlyOne_helper hshape

/-- C10 (witness): the record parsed from the concrete senkyo.com sample
section (non-proportional, so alternative (b) holds exclusively). -/
theorem district_fields_exactly_one_witness :
    ((sampleSenkyoRecord.senkyoku = "比例" ∧ sampleSenkyoRecord.todoufuken = "") ∧
      ¬ sampleSenkyoRecord.todoufuken = sampleSenkyoRecord.senkyoku) ∨
    (sampleSenkyoRecord.todoufuken = sampleSenkyoRecord.senkyoku ∧
      ¬(sampleSenkyoRecord.senkyoku = "比例" ∧ sampleSenkyoRecord.todoufuken = "")) :=
  district_fields_exactly_one.2 (fun _ => "x") (fun _ => "y")
    [some sampleEntry] "東京" false sampleSenkyoRecord (by decide)
